import Mathlib

/-!
Shallow embedding of the rust-http-practice HTTP engine
(src/common.rs, src/server.rs, src/client.rs).

Byte streams are modelled as lists of characters, one character per byte
position of the wire; machine integers are modelled as Nat, so integer
overflow of a declared content length is not modelled.  The io::Error
payload of the IOError variant is not modelled; the pure stream model
never produces an input/output failure, so decoding only ever fails with
HttpSyntaxError, exactly as the source does on a fully readable stream.
The HashMap holding headers is modelled as an insertion-ordered
association list whose insert operation overwrites the existing entry,
which fixes one reproducible iteration order for write_to.
-/

/-- Convert a string literal to the character list it denotes. -/
def chars (s : String) : List Char := s.data

/-- Unicode white-space test used by str::trim_start (char::is_whitespace). -/
def rustIsWhitespace (c : Char) : Bool :=
  c.toNat = 9 || c.toNat = 10 || c.toNat = 11 || c.toNat = 12 || c.toNat = 13 ||
  c.toNat = 32 || c.toNat = 133 || c.toNat = 160 || c.toNat = 5760 ||
  c.toNat = 8192 || c.toNat = 8193 || c.toNat = 8194 || c.toNat = 8195 ||
  c.toNat = 8196 || c.toNat = 8197 || c.toNat = 8198 || c.toNat = 8199 ||
  c.toNat = 8200 || c.toNat = 8201 || c.toNat = 8202 || c.toNat = 8232 ||
  c.toNat = 8233 || c.toNat = 8239 || c.toNat = 8287 || c.toNat = 12288

/-- str::trim_start. -/
def trimStart (l : List Char) : List Char := l.dropWhile rustIsWhitespace

/-- char::to_ascii_lowercase on one character. -/
def asciiLowerChar (c : Char) : Char :=
  if 'A' ≤ c ∧ c ≤ 'Z' then Char.ofNat (c.toNat + 32) else c

/-- str::to_ascii_lowercase. -/
def asciiLower (l : List Char) : List Char := l.map asciiLowerChar

/-- The decimal digit character for d. -/
def digitChar (d : Nat) : Char := Char.ofNat (48 + d)

/-- Fuel-indexed decimal rendering; the fuel always suffices when it exceeds n. -/
def natReprAux : Nat → Nat → List Char
  | 0, _ => []
  | fuel + 1, n => if n < 10 then [digitChar n] else natReprAux fuel (n / 10) ++ [digitChar (n % 10)]

/-- Decimal rendering of a nonnegative integer (Display for usize and u32). -/
def natRepr (n : Nat) : List Char := natReprAux (n + 1) n

/-- Digit-folding loop of integer parsing. -/
def parseDigitsAux : List Char → Nat → Option Nat
  | [], acc => some acc
  | c :: rest, acc => if c.isDigit then parseDigitsAux rest (10 * acc + (c.toNat - 48)) else none

/-- str::parse::<usize>: an optional leading plus sign, then one or more digits. -/
def rustParseNat (l : List Char) : Option Nat :=
  match l with
  | [] => none
  | c :: rest =>
    if c = '+' then (if rest = [] then none else parseDigitsAux rest 0)
    else parseDigitsAux (c :: rest) 0

/-- BufRead::read_line: take characters up to and including the first newline,
or to the end of the stream; returns the line and the remaining stream.
A zero-length result corresponds to a read_line call returning size 0. -/
def readLine : List Char → List Char × List Char
  | [] => ([], [])
  | c :: cs =>
    if c = '\n' then ([c], cs)
    else
      let p := readLine cs
      (c :: p.1, p.2)

/-- Strip repeated leading LF CR pairs; helper for trimEndCRLF on the reversed list. -/
def stripNLCR : List Char → List Char
  | [] => []
  | [c] => [c]
  | c1 :: c2 :: rest => if c1 = '\n' ∧ c2 = '\r' then stripNLCR rest else c1 :: c2 :: rest

/-- str::trim_end_matches applied to the repeated two-character suffix CR LF. -/
def trimEndCRLF (l : List Char) : List Char := (stripNLCR l.reverse).reverse

/-- Split at the first occurrence of a separator, dropping it; none when absent. -/
def breakAtChar (sep : Char) : List Char → Option (List Char × List Char)
  | [] => none
  | c :: rest =>
    if c = sep then some ([], rest)
    else
      match breakAtChar sep rest with
      | none => none
      | some p => some (c :: p.1, p.2)

/-- str::splitn with a single-character separator pattern. -/
def splitnChar : Nat → Char → List Char → List (List Char)
  | 0, _, _ => []
  | 1, _, l => [l]
  | n + 2, sep, l =>
    match breakAtChar sep l with
    | none => [l]
    | some p => p.1 :: splitnChar (n + 1) sep p.2

/-- Newline-delimited line decomposition of a stream, the possibly
unterminated final chunk included. -/
def linesOfAux (cur : List Char) : List Char → List (List Char)
  | [] => if cur = [] then [] else [cur]
  | c :: rest =>
    if c = '\n' then (cur ++ ['\n']) :: linesOfAux [] rest else linesOfAux (cur ++ [c]) rest

/-- The lines of a stream as read_line would deliver them. -/
def linesOf (s : List Char) : List (List Char) := linesOfAux [] s

inductive HttpMethod where
  | GET
  | POST
deriving DecidableEq

inductive HttpVersion where
  | HTTP1_0
  | HTTP1_1
  | UNSUPPORTED
deriving DecidableEq

inductive HttpStatus where
  | Ok
  | NotFound
  | Invalid
deriving DecidableEq

/-- HttpError from common.rs; the io::Error payload is not modelled. -/
inductive HttpError where
  | IOError
  | HttpSyntaxError
deriving DecidableEq

/-- HttpMethod::to_string. -/
def methodToken : HttpMethod → List Char
  | HttpMethod.GET => chars "GET"
  | HttpMethod.POST => chars "POST"

/-- The method match arms of HttpServer::recv; none is the syntax-error arm. -/
def methodFromToken (t : List Char) : Option HttpMethod :=
  if t = chars "GET" then some HttpMethod.GET
  else if t = chars "POST" then some HttpMethod.POST
  else none

/-- HttpVersion::string. -/
def versionToken : HttpVersion → List Char
  | HttpVersion.HTTP1_0 => chars "HTTP/1.0"
  | HttpVersion.HTTP1_1 => chars "HTTP/1.1"
  | HttpVersion.UNSUPPORTED => chars "UNSUPPORTED"

/-- From<&str> for HttpVersion. -/
def versionFromToken (t : List Char) : HttpVersion :=
  if t = chars "HTTP/1.0" then HttpVersion.HTTP1_0
  else if t = chars "HTTP/1.1" then HttpVersion.HTTP1_1
  else HttpVersion.UNSUPPORTED

/-- HttpStatus::code. -/
def statusCode : HttpStatus → Nat
  | HttpStatus.Ok => 200
  | HttpStatus.NotFound => 404
  | HttpStatus.Invalid => 0

/-- HttpStatus::string. -/
def statusReason : HttpStatus → List Char
  | HttpStatus.Ok => chars "OK"
  | HttpStatus.NotFound => chars "Not Found"
  | HttpStatus.Invalid => []

/-- From<&str> for HttpStatus. -/
def statusFromToken (t : List Char) : HttpStatus :=
  if t = chars "200" then HttpStatus.Ok
  else if t = chars "404" then HttpStatus.NotFound
  else HttpStatus.Invalid

/-- HashMap<String, String> of HttpHeaders, as an association list. -/
abbrev Headers := List (List Char × List Char)

/-- HashMap::get. -/
def hget : Headers → List Char → Option (List Char)
  | [], _ => none
  | (k0, v0) :: rest, k => if k0 = k then some v0 else hget rest k

/-- HashMap::insert: overwrite the existing entry or append a new one. -/
def hinsert : Headers → List Char → List Char → Headers
  | [], k, v => [(k, v)]
  | (k0, v0) :: rest, k, v => if k0 = k then (k, v) :: rest else (k0, v0) :: hinsert rest k v

/-- HttpHeaders::contains_key (HashMap::contains_key, an exact-key lookup). -/
def contains_key (h : Headers) (k : List Char) : Bool :=
  match hget h k with
  | some _ => true
  | none => false

/-- HttpHeaders::content_length: parse the content-length entry when present. -/
def content_length (h : Headers) : Option Nat :=
  match hget h (chars "content-length") with
  | some v => rustParseNat v
  | none => none

/-- One emitted header line of HttpHeaders::write_to: key, colon, space, value, CR LF. -/
def headerLine (kv : List Char × List Char) : List Char :=
  kv.1 ++ ':' :: ' ' :: kv.2 ++ ['\r', '\n']

/-- HttpHeaders::write_to: emit every pair, in stored order. -/
def writeHeaders : Headers → List Char
  | [] => []
  | kv :: rest => headerLine kv ++ writeHeaders rest

structure HttpRequest where
  method : HttpMethod
  path : List Char
  version : HttpVersion
  headers : Headers
  body : List Char
deriving DecidableEq

structure HttpResponse where
  version : HttpVersion
  status : HttpStatus
  headers : Headers
  body : List Char
deriving DecidableEq

/-- Loop body of HttpHeaders::read_from. cur is the partial current line
accumulated before its newline.  A stream that ends before the blank CR LF
line always yields a syntax error, as in the source, where either read_line
returns size 0, or the colonless partial tail line fails, or the partial
tail line parses as one more header and the next read_line returns size 0;
all those paths return HttpSyntaxError. -/
def readFromAux : Headers → List Char → List Char → Except HttpError (Headers × List Char)
  | _, _, [] => .error HttpError.HttpSyntaxError
  | acc, cur, c :: rest =>
    if c = '\n' then
      let ls := trimEndCRLF (cur ++ ['\n'])
      if ls = [] then .ok (acc, rest)
      else
        match breakAtChar ':' ls with
        | none => .error HttpError.HttpSyntaxError
        | some kv => readFromAux (hinsert acc (asciiLower kv.1) (trimStart kv.2)) [] rest
    else readFromAux acc (cur ++ [c]) rest

/-- HttpHeaders::read_from: parse the header block, returning the parsed map
and the unconsumed stream after the blank line. -/
def read_from (acc : Headers) (s : List Char) : Except HttpError (Headers × List Char) :=
  readFromAux acc [] s

/-- The request-line parsing of HttpServer::recv: trim the CR LF suffix,
split on single spaces into at most three tokens, then check method and
version.  The source consumes the tokens by iterator; a missing token there
and an unrecognized token here both end in HttpSyntaxError. -/
def parseRequestLine (line : List Char) : Except HttpError (HttpMethod × List Char × HttpVersion) :=
  match splitnChar 3 ' ' (trimEndCRLF line) with
  | mt :: rest =>
    match methodFromToken mt with
    | none => .error HttpError.HttpSyntaxError
    | some m =>
      match rest with
      | pt :: vt :: _ =>
        if versionFromToken vt = HttpVersion.UNSUPPORTED then .error HttpError.HttpSyntaxError
        else .ok (m, pt, versionFromToken vt)
      | _ => .error HttpError.HttpSyntaxError
  | [] => .error HttpError.HttpSyntaxError

/-- HttpServer::recv: decode one request from a stream.  With a positive
declared content length the source calls read_to_end, so the body becomes
every remaining character of the stream and the stream is left empty. -/
def serverRecv (s : List Char) : Except HttpError (HttpRequest × List Char) :=
  match parseRequestLine (readLine s).1 with
  | .error e => .error e
  | .ok (m, p, v) =>
    match read_from [] (readLine s).2 with
    | .error e => .error e
    | .ok (h, s2) =>
      match content_length h with
      | some 0 => .ok ({method := m, path := p, version := v, headers := h, body := []}, s2)
      | some _ => .ok ({method := m, path := p, version := v, headers := h, body := s2}, [])
      | none => .ok ({method := m, path := p, version := v, headers := h, body := []}, s2)

/-- HttpClient::recv: decode one response from a stream.  The status line is
split without trimming; with no declared length the whole remaining stream
is the body (read_to_end), and likewise for a positive declared length. -/
def clientRecv (s : List Char) : Except HttpError (HttpResponse × List Char) :=
  match splitnChar 3 ' ' (readLine s).1 with
  | vt :: rest =>
    if versionFromToken vt = HttpVersion.UNSUPPORTED then .error HttpError.HttpSyntaxError
    else
      match rest with
      | st :: _ =>
        if statusFromToken st = HttpStatus.Invalid then .error HttpError.HttpSyntaxError
        else
          match read_from [] (readLine s).2 with
          | .error e => .error e
          | .ok (h, s2) =>
            match content_length h with
            | some 0 => .ok ({version := versionFromToken vt, status := statusFromToken st, headers := h, body := []}, s2)
            | some _ => .ok ({version := versionFromToken vt, status := statusFromToken st, headers := h, body := s2}, [])
            | none => .ok ({version := versionFromToken vt, status := statusFromToken st, headers := h, body := s2}, [])
      | [] => .error HttpError.HttpSyntaxError
  | [] => .error HttpError.HttpSyntaxError

/-- The computed content-length line both encoders append when the caller
did not supply one. -/
def clPart (h : Headers) (body : List Char) : List Char :=
  if contains_key h (chars "content-length") then []
  else headerLine (chars "content-length", natRepr body.length)

/-- HttpClient::send: serialize a request. -/
def encodeRequest (req : HttpRequest) : List Char :=
  methodToken req.method ++ ' ' :: req.path ++ ' ' :: versionToken req.version ++ '\r' :: '\n' ::
    (writeHeaders req.headers ++ clPart req.headers req.body ++ '\r' :: '\n' :: req.body)

/-- HttpServer::send: serialize a response. -/
def encodeResponse (resp : HttpResponse) : List Char :=
  versionToken resp.version ++ ' ' :: natRepr (statusCode resp.status) ++ ' ' ::
    statusReason resp.status ++ '\r' :: '\n' ::
    (writeHeaders resp.headers ++ clPart resp.headers resp.body ++ '\r' :: '\n' :: resp.body)

/-- The Handler capability.  A handler receives the request by mutable
reference in the source, so here it returns the possibly updated request
next to its response. -/
abbrev Handler := HttpRequest → Except HttpError (HttpResponse × HttpRequest)

/-- HttpServer::handle: decode, dispatch, encode for one connection. -/
def serverHandle (handler : Handler) (input : List Char) : Except HttpError (List Char) :=
  match serverRecv input with
  | .error e => .error e
  | .ok (req, _) =>
    match handler req with
    | .error e => .error e
    | .ok (resp, _) => .ok (encodeResponse resp)

/-- HttpServer::listen over a finite schedule of incoming connections,
collecting the bytes answered on each; the question-mark operator in the
source propagates the first per-connection error out of the loop. -/
def serverListen (handler : Handler) : List (List Char) → Except HttpError (List (List Char))
  | [] => .ok []
  | c :: cs =>
    match serverHandle handler c with
    | .error e => .error e
    | .ok out =>
      match serverListen handler cs with
      | .error e => .error e
      | .ok outs => .ok (out :: outs)

structure Rule where
  method : HttpMethod
  path : List Char
  handler : Handler

/-- Router::handle: scan the rules in order, dispatch on the first whose
method and path both match exactly, else synthesize a NotFound response. -/
def routerHandle : List Rule → Handler
  | [], req => .ok ({version := req.version, status := HttpStatus.NotFound, headers := [], body := []}, req)
  | r :: rs, req =>
    if r.method = req.method ∧ r.path = req.path then r.handler req else routerHandle rs req

/-- A handler answering 200 with empty headers and body, as wired in main. -/
def okHandler : Handler := fun req =>
  .ok ({version := req.version, status := HttpStatus.Ok, headers := [], body := []}, req)

lemma digitChar_toNat (d : Nat) (h : d < 10) : (digitChar d).toNat = 48 + d := by
  interval_cases d <;> decide

lemma digitChar_isDigit (d : Nat) (h : d < 10) : (digitChar d).isDigit = true := by
  interval_cases d <;> decide

lemma natReprAux_ne_nil (fuel n : Nat) (h : n < fuel) : natReprAux fuel n ≠ [] := by
  cases fuel with
  | zero => omega
  | succ f =>
    by_cases h10 : n < 10 <;> simp [natReprAux, h10]

lemma mem_natReprAux (fuel n : Nat) (h : n < fuel) :
    ∀ c ∈ natReprAux fuel n, ∃ d, d < 10 ∧ c = digitChar d := by
  induction fuel generalizing n with
  | zero => omega
  | succ f ih =>
    intro c hc
    by_cases h10 : n < 10
    · simp only [natReprAux, if_pos h10, List.mem_singleton] at hc
      exact ⟨n, h10, hc⟩
    · simp only [natReprAux, if_neg h10, List.mem_append, List.mem_singleton] at hc
      rcases hc with hc | hc
      · have hlt : n / 10 < f := by
          have h1 : n / 10 < n := Nat.div_lt_self (by omega) (by norm_num)
          omega
        exact ih (n / 10) hlt c hc
      · exact ⟨n % 10, Nat.mod_lt _ (by norm_num), hc⟩

lemma foldl_digits_natReprAux (fuel n : Nat) (h : n < fuel) :
    (natReprAux fuel n).foldl (fun a c => 10 * a + (c.toNat - 48)) 0 = n := by
  induction fuel generalizing n with
  | zero => omega
  | succ f ih =>
    by_cases h10 : n < 10
    · simp only [natReprAux, if_pos h10, List.foldl_cons, List.foldl_nil]
      rw [digitChar_toNat n h10]
      omega
    · have hlt : n / 10 < f := by
        have h1 : n / 10 < n := Nat.div_lt_self (by omega) (by norm_num)
        omega
      simp only [natReprAux, if_neg h10, List.foldl_append, List.foldl_cons, List.foldl_nil]
      rw [ih (n / 10) hlt, digitChar_toNat (n % 10) (Nat.mod_lt _ (by norm_num))]
      omega

lemma parseDigitsAux_all_digits (l : List Char) :
    ∀ acc, (∀ c ∈ l, c.isDigit = true) →
      parseDigitsAux l acc = some (l.foldl (fun a c => 10 * a + (c.toNat - 48)) acc) := by
  induction l with
  | nil => intro acc _; rfl
  | cons c cs ih =>
    intro acc hall
    have hc : c.isDigit = true := hall c (List.mem_cons_self c cs)
    simp only [parseDigitsAux, if_pos hc, List.foldl_cons]
    exact ih _ (fun x hx => hall x (List.mem_cons_of_mem c hx))

lemma rustParseNat_natRepr (n : Nat) : rustParseNat (natRepr n) = some n := by
  have hne := natReprAux_ne_nil (n + 1) n (by omega)
  have hdig := mem_natReprAux (n + 1) n (by omega)
  have hval := foldl_digits_natReprAux (n + 1) n (by omega)
  rcases hrep : natReprAux (n + 1) n with _ | ⟨c, rest⟩
  · exact absurd hrep hne
  · have hcd : ∃ d, d < 10 ∧ c = digitChar d := by
      refine hdig c ?_
      rw [hrep]; exact List.mem_cons_self c rest
    have hcp : c ≠ '+' := by
      obtain ⟨d, hd, rfl⟩ := hcd
      interval_cases d <;> decide
    show rustParseNat (natReprAux (n + 1) n) = some n
    rw [hrep]
    simp only [rustParseNat, if_neg hcp]
    rw [parseDigitsAux_all_digits (c :: rest) 0]
    · rw [← hrep, hval]
    · intro x hx
      obtain ⟨d, hd, rfl⟩ := hdig x (hrep ▸ hx)
      exact digitChar_isDigit d hd

lemma natRepr_no_nl (n : Nat) : '\n' ∉ natRepr n := by
  intro hmem
  obtain ⟨d, hd, hc⟩ := mem_natReprAux (n + 1) n (by omega) '\n' hmem
  interval_cases d <;> simp_all <;> exact absurd hc (by decide)

lemma trimStart_natRepr (n : Nat) : trimStart (natRepr n) = natRepr n := by
  have hne := natReprAux_ne_nil (n + 1) n (by omega)
  have hdig := mem_natReprAux (n + 1) n (by omega)
  show trimStart (natReprAux (n + 1) n) = natReprAux (n + 1) n
  rcases hrep : natReprAux (n + 1) n with _ | ⟨c, rest⟩
  · rfl
  · have hws : rustIsWhitespace c = false := by
      obtain ⟨d, hd, rfl⟩ := hdig c (by rw [hrep]; exact List.mem_cons_self c rest)
      interval_cases d <;> decide
    simp [trimStart, List.dropWhile_cons, hws]

lemma readLine_append (a t : List Char) (h : '\n' ∉ a) :
    readLine (a ++ '\n' :: t) = (a ++ ['\n'], t) := by
  induction a with
  | nil => simp [readLine]
  | cons c cs ih =>
    have hc : c ≠ '\n' := fun hh => h (hh ▸ List.mem_cons_self c cs)
    have ih2 := ih (fun hm => h (List.mem_cons_of_mem c hm))
    simp only [List.cons_append, readLine, if_neg hc, List.append_eq, ih2]

lemma stripNLCR_no_nl (l : List Char) (h : '\n' ∉ l) : stripNLCR l = l := by
  match l with
  | [] => rfl
  | [c] => rfl
  | c1 :: c2 :: rest =>
    have hc : c1 ≠ '\n' := fun hh => h (hh ▸ List.mem_cons_self c1 (c2 :: rest))
    rw [stripNLCR, if_neg (fun hand => hc hand.1)]

lemma trimEndCRLF_no_nl (l : List Char) (h : '\n' ∉ l) : trimEndCRLF l = l := by
  unfold trimEndCRLF
  rw [stripNLCR_no_nl l.reverse (by simpa using h), List.reverse_reverse]

lemma stripNLCR_cons_nlcr (r : List Char) : stripNLCR ('\n' :: '\r' :: r) = stripNLCR r := by
  rw [stripNLCR, if_pos ⟨rfl, rfl⟩]

lemma trimEndCRLF_append_crlf (x : List Char) (h : '\n' ∉ x) :
    trimEndCRLF (x ++ ['\r', '\n']) = x := by
  unfold trimEndCRLF
  have hsh : (x ++ ['\r', '\n']).reverse = '\n' :: '\r' :: x.reverse := by simp
  rw [hsh, stripNLCR_cons_nlcr, stripNLCR_no_nl x.reverse (by simpa using h),
    List.reverse_reverse]

lemma mem_stripNLCR (c : Char) : ∀ l : List Char, c ∈ stripNLCR l → c ∈ l
  | [], h => h
  | [_], h => h
  | c1 :: c2 :: rest, h => by
    by_cases hc : c1 = '\n' ∧ c2 = '\r'
    · rw [stripNLCR, if_pos hc] at h
      exact List.mem_cons_of_mem _ (List.mem_cons_of_mem _ (mem_stripNLCR c rest h))
    · rwa [stripNLCR, if_neg hc] at h

lemma mem_trimEndCRLF (c : Char) (l : List Char) (h : c ∈ trimEndCRLF l) : c ∈ l := by
  unfold trimEndCRLF at h
  rw [List.mem_reverse] at h
  have := mem_stripNLCR c l.reverse h
  simpa using this

lemma breakAtChar_none (sep : Char) (l : List Char) (h : sep ∉ l) : breakAtChar sep l = none := by
  induction l with
  | nil => rfl
  | cons c cs ih =>
    have hc : c ≠ sep := fun hh => h (hh ▸ List.mem_cons_self c cs)
    simp [breakAtChar, hc, ih (fun hm => h (List.mem_cons_of_mem c hm))]

lemma breakAtChar_append (sep : Char) (a t : List Char) (h : sep ∉ a) :
    breakAtChar sep (a ++ sep :: t) = some (a, t) := by
  induction a with
  | nil => simp [breakAtChar]
  | cons c cs ih =>
    have hc : c ≠ sep := fun hh => h (hh ▸ List.mem_cons_self c cs)
    simp [breakAtChar, hc, ih (fun hm => h (List.mem_cons_of_mem c hm))]

lemma splitnChar_succ2 (n : Nat) (sep : Char) (a t : List Char) (h : sep ∉ a) :
    splitnChar (n + 2) sep (a ++ sep :: t) = a :: splitnChar (n + 1) sep t := by
  simp [splitnChar, breakAtChar_append sep a t h]

lemma splitnChar_three (a b c : List Char) (ha : ' ' ∉ a) (hb : ' ' ∉ b) :
    splitnChar 3 ' ' (a ++ ' ' :: (b ++ ' ' :: c)) = [a, b, c] := by
  have h1 := splitnChar_succ2 1 ' ' a (b ++ ' ' :: c) ha
  norm_num at h1
  rw [h1]
  have h2 := splitnChar_succ2 0 ' ' b c hb
  norm_num at h2
  rw [h2]
  rfl

lemma trimStart_cons_space (v : List Char) : trimStart (' ' :: v) = trimStart v := by
  simp [trimStart, List.dropWhile_cons, show rustIsWhitespace ' ' = true from by decide]

lemma readFromAux_line (acc : Headers) (cur line rest : List Char) (h : '\n' ∉ line) :
    readFromAux acc cur (line ++ '\n' :: rest) =
      (if trimEndCRLF (cur ++ line ++ ['\n']) = [] then .ok (acc, rest)
       else
         match breakAtChar ':' (trimEndCRLF (cur ++ line ++ ['\n'])) with
         | none => .error HttpError.HttpSyntaxError
         | some kv => readFromAux (hinsert acc (asciiLower kv.1) (trimStart kv.2)) [] rest) := by
  induction line generalizing cur with
  | nil =>
    show readFromAux acc cur ('\n' :: rest) = _
    simp [readFromAux]
  | cons c cs ih =>
    have hc : c ≠ '\n' := fun hh => h (hh ▸ List.mem_cons_self c cs)
    have ih2 := ih (cur ++ [c]) (fun hm => h (List.mem_cons_of_mem c hm))
    show readFromAux acc cur (c :: (cs ++ '\n' :: rest)) = _
    rw [readFromAux, if_neg hc, ih2]
    have hsh : cur ++ [c] ++ cs = cur ++ c :: cs := by simp
    rw [hsh]

lemma read_step (acc : Headers) (kv : List Char × List Char) (rest : List Char)
    (hk : ':' ∉ kv.1) (hnk : '\n' ∉ kv.1) (hnv : '\n' ∉ kv.2) :
    readFromAux acc [] (headerLine kv ++ rest) =
      readFromAux (hinsert acc (asciiLower kv.1) (trimStart kv.2)) [] rest := by
  have hnox : '\n' ∉ kv.1 ++ ':' :: ' ' :: kv.2 := by
    intro hmem
    rcases List.mem_append.1 hmem with h1 | h2
    · exact hnk h1
    · rcases List.mem_cons.1 h2 with h3 | h4
      · exact absurd h3 (by decide)
      · rcases List.mem_cons.1 h4 with h5 | h6
        · exact absurd h5 (by decide)
        · exact hnv h6
  have hshape : headerLine kv ++ rest = (kv.1 ++ ':' :: ' ' :: kv.2 ++ ['\r']) ++ '\n' :: rest := by
    simp [headerLine]
  have hline : '\n' ∉ kv.1 ++ ':' :: ' ' :: kv.2 ++ ['\r'] := by
    intro hmem
    rcases List.mem_append.1 hmem with h1 | h2
    · exact hnox h1
    · exact absurd (List.mem_singleton.1 h2) (by decide)
  rw [hshape, readFromAux_line acc [] _ rest hline]
  have htr : [] ++ (kv.1 ++ ':' :: ' ' :: kv.2 ++ ['\r']) ++ ['\n'] =
      (kv.1 ++ ':' :: ' ' :: kv.2) ++ ['\r', '\n'] := by simp
  rw [htr, trimEndCRLF_append_crlf _ hnox]
  have hne : kv.1 ++ ':' :: ' ' :: kv.2 ≠ [] := by simp
  rw [if_neg hne]
  have hbr : breakAtChar ':' (kv.1 ++ ':' :: (' ' :: kv.2)) = some (kv.1, ' ' :: kv.2) :=
    breakAtChar_append ':' kv.1 (' ' :: kv.2) hk
  rw [hbr]
  show readFromAux (hinsert acc (asciiLower kv.1) (trimStart (' ' :: kv.2))) [] rest = _
  rw [trimStart_cons_space]

lemma read_from_nil_block (acc : Headers) (rest : List Char) :
    read_from acc ('\r' :: '\n' :: rest) = .ok (acc, rest) := rfl

lemma read_from_writeHeaders (hs : Headers) (acc : Headers) (rest : List Char)
    (hok : ∀ kv ∈ hs, asciiLower kv.1 = kv.1 ∧ trimStart kv.2 = kv.2 ∧
      ':' ∉ kv.1 ∧ '\n' ∉ kv.1 ∧ '\n' ∉ kv.2) :
    read_from acc (writeHeaders hs ++ '\r' :: '\n' :: rest) =
      .ok (hs.foldl (fun a kv => hinsert a kv.1 kv.2) acc, rest) := by
  induction hs generalizing acc with
  | nil => exact read_from_nil_block acc rest
  | cons kv t ih =>
    obtain ⟨hlow, htrim, hk, hnk, hnv⟩ := hok kv (List.mem_cons_self kv t)
    show readFromAux acc [] ((headerLine kv ++ writeHeaders t) ++ '\r' :: '\n' :: rest) = _
    rw [List.append_assoc, read_step acc kv _ hk hnk hnv, hlow, htrim]
    exact ih (hinsert acc kv.1 kv.2) (fun e he => hok e (List.mem_cons_of_mem kv he))

lemma hget_none_of_not_mem (h : Headers) (k : List Char) (hk : k ∉ h.map Prod.fst) :
    hget h k = none := by
  induction h with
  | nil => rfl
  | cons kv t ih =>
    have h1 : kv.1 ≠ k := by
      intro hh
      exact hk (by simp [← hh])
    show hget (kv :: t) k = none
    rw [show hget (kv :: t) k = if kv.1 = k then some kv.2 else hget t k from rfl, if_neg h1]
    exact ih (fun hm => hk (by simp [List.map_cons]; right; simpa using hm))

lemma not_mem_of_hget_none (h : Headers) (k : List Char) (hk : hget h k = none) :
    k ∉ h.map Prod.fst := by
  induction h with
  | nil => simp
  | cons kv t ih =>
    rw [show hget (kv :: t) k = if kv.1 = k then some kv.2 else hget t k from rfl] at hk
    by_cases he : kv.1 = k
    · rw [if_pos he] at hk; exact absurd hk (by simp)
    · rw [if_neg he] at hk
      simp only [List.map_cons, List.mem_cons]
      push_neg
      exact ⟨fun hh => he hh.symm, ih hk⟩

lemma hget_append (a b : Headers) (k : List Char) :
    hget (a ++ b) k = match hget a k with
      | some v => some v
      | none => hget b k := by
  induction a with
  | nil => rfl
  | cons kv t ih =>
    by_cases he : kv.1 = k
    · show (if kv.1 = k then some kv.2 else hget (t ++ b) k) = _
      rw [if_pos he]
      rw [show hget (kv :: t) k = if kv.1 = k then some kv.2 else hget t k from rfl, if_pos he]
    · show (if kv.1 = k then some kv.2 else hget (t ++ b) k) = _
      rw [if_neg he, ih]
      rw [show hget (kv :: t) k = if kv.1 = k then some kv.2 else hget t k from rfl, if_neg he]

lemma hinsert_of_hget_none (h : Headers) (k v : List Char) (hk : hget h k = none) :
    hinsert h k v = h ++ [(k, v)] := by
  induction h with
  | nil => rfl
  | cons kv t ih =>
    rw [show hget (kv :: t) k = if kv.1 = k then some kv.2 else hget t k from rfl] at hk
    by_cases he : kv.1 = k
    · rw [if_pos he] at hk; exact absurd hk (by simp)
    · rw [if_neg he] at hk
      show (if kv.1 = k then (k, v) :: t else kv :: hinsert t k v) = _
      rw [if_neg he, ih hk]
      rfl

lemma foldl_hinsert_fresh (hs : Headers) :
    ∀ acc : Headers, (hs.map Prod.fst).Nodup → (∀ kv ∈ hs, hget acc kv.1 = none) →
      hs.foldl (fun a kv => hinsert a kv.1 kv.2) acc = acc ++ hs := by
  induction hs with
  | nil => intro acc _ _; simp
  | cons kv t ih =>
    intro acc hnd hfresh
    have hnd1 : (t.map Prod.fst).Nodup := by
      rw [List.map_cons] at hnd
      exact (List.nodup_cons.1 hnd).2
    have hnotin : kv.1 ∉ t.map Prod.fst := by
      rw [List.map_cons] at hnd
      exact (List.nodup_cons.1 hnd).1
    have hstep : hinsert acc kv.1 kv.2 = acc ++ [kv] := by
      rw [hinsert_of_hget_none acc kv.1 kv.2 (hfresh kv (List.mem_cons_self kv t))]
    have hfresh2 : ∀ e ∈ t, hget (acc ++ [kv]) e.1 = none := by
      intro e he
      rw [hget_append]
      rw [hfresh e (List.mem_cons_of_mem kv he)]
      have hne : kv.1 ≠ e.1 := by
        intro hh
        exact hnotin (hh ▸ (List.mem_map.2 ⟨e, he, rfl⟩))
      show (if kv.1 = e.1 then some kv.2 else hget [] e.1) = none
      rw [if_neg hne]
      rfl
    show t.foldl (fun a kv => hinsert a kv.1 kv.2) (hinsert acc kv.1 kv.2) = acc ++ kv :: t
    rw [hstep, ih (acc ++ [kv]) hnd1 hfresh2]
    simp

lemma contains_key_false_iff (h : Headers) (k : List Char) :
    contains_key h k = false ↔ hget h k = none := by
  unfold contains_key
  cases hget h k <;> simp

lemma contains_key_true_iff (h : Headers) (k : List Char) :
    contains_key h k = true ↔ ∃ v, hget h k = some v := by
  unfold contains_key
  cases hget h k <;> simp

lemma methodFromToken_methodToken (m : HttpMethod) : methodFromToken (methodToken m) = some m := by
  cases m <;> rfl

lemma versionFromToken_versionToken (v : HttpVersion) (h : v ≠ HttpVersion.UNSUPPORTED) :
    versionFromToken (versionToken v) = v := by
  cases v with
  | HTTP1_0 => rfl
  | HTTP1_1 => rfl
  | UNSUPPORTED => exact absurd rfl h

lemma methodToken_no_nl (m : HttpMethod) : '\n' ∉ methodToken m := by
  cases m <;> decide

lemma methodToken_no_sp (m : HttpMethod) : ' ' ∉ methodToken m := by
  cases m <;> decide

lemma versionToken_no_nl (v : HttpVersion) : '\n' ∉ versionToken v := by
  cases v <;> decide

lemma writeHeaders_append (a b : Headers) :
    writeHeaders (a ++ b) = writeHeaders a ++ writeHeaders b := by
  induction a with
  | nil => rfl
  | cons kv t ih =>
    show headerLine kv ++ writeHeaders (t ++ b) = (headerLine kv ++ writeHeaders t) ++ writeHeaders b
    rw [ih, List.append_assoc]

lemma clPart_eq_writeHeaders (h : Headers) (body : List Char) :
    clPart h body = writeHeaders
      (if contains_key h (chars "content-length") then []
       else [(chars "content-length", natRepr body.length)]) := by
  unfold clPart
  by_cases hc : contains_key h (chars "content-length") <;> simp [hc, writeHeaders]

lemma parseRequestLine_wire (m : HttpMethod) (p : List Char) (v : HttpVersion)
    (hv : v ≠ HttpVersion.UNSUPPORTED) (hps : ' ' ∉ p) (hpn : '\n' ∉ p) :
    parseRequestLine (methodToken m ++ ' ' :: (p ++ ' ' :: versionToken v) ++ ['\r', '\n']) =
      .ok (m, p, v) := by
  have hx : '\n' ∉ methodToken m ++ ' ' :: (p ++ ' ' :: versionToken v) := by
    intro hmem
    rcases List.mem_append.1 hmem with h1 | h2
    · exact methodToken_no_nl m h1
    · rcases List.mem_cons.1 h2 with h3 | h4
      · exact absurd h3 (by decide)
      · rcases List.mem_append.1 h4 with h5 | h6
        · exact hpn h5
        · rcases List.mem_cons.1 h6 with h7 | h8
          · exact absurd h7 (by decide)
          · exact versionToken_no_nl v h8
  unfold parseRequestLine
  rw [trimEndCRLF_append_crlf _ hx,
    splitnChar_three (methodToken m) p (versionToken v) (methodToken_no_sp m) hps]
  simp only [methodFromToken_methodToken, versionFromToken_versionToken v hv, if_neg hv]

lemma serverRecv_decomp (a t : List Char) (m : HttpMethod) (p : List Char) (v : HttpVersion)
    (h : Headers) (s2 : List Char)
    (ha : '\n' ∉ a) (hp : parseRequestLine (a ++ ['\n']) = .ok (m, p, v))
    (hr : read_from [] t = .ok (h, s2)) :
    serverRecv (a ++ '\n' :: t) =
      (match content_length h with
       | some 0 => .ok ({method := m, path := p, version := v, headers := h, body := []}, s2)
       | some _ => .ok ({method := m, path := p, version := v, headers := h, body := s2}, [])
       | none => .ok ({method := m, path := p, version := v, headers := h, body := []}, s2)) := by
  unfold serverRecv
  rw [readLine_append a t ha]
  simp only [hp, hr]

/-- C3 (amended): encoding a request and decoding the produced bytes restores
method, path, version and body exactly, and restores the headers up to the
content-length entry, which afterwards holds the decimal byte length of the
body; this holds provided the path contains no space and no line feed, the
header names are lower-case, colon-free and line-feed-free and pairwise
distinct, the header values contain no line feed and carry no leading white
space, and any caller-supplied content-length entry already equals the
decimal byte length of the body. -/
theorem c3_round_trip (req : HttpRequest)
    (hv : req.version ≠ HttpVersion.UNSUPPORTED)
    (hps : ' ' ∉ req.path) (hpn : '\n' ∉ req.path)
    (hnd : (req.headers.map Prod.fst).Nodup)
    (hok : ∀ kv ∈ req.headers, asciiLower kv.1 = kv.1 ∧ trimStart kv.2 = kv.2 ∧
      ':' ∉ kv.1 ∧ '\n' ∉ kv.1 ∧ '\n' ∉ kv.2)
    (hcl : hget req.headers (chars "content-length") = none ∨
      hget req.headers (chars "content-length") = some (natRepr req.body.length)) :
    ∃ h : Headers,
      serverRecv (encodeRequest req) =
        .ok ({method := req.method, path := req.path, version := req.version,
              headers := h, body := req.body}, []) ∧
      hget h (chars "content-length") = some (natRepr req.body.length) ∧
      ∀ k, k ≠ chars "content-length" → hget h k = hget req.headers k := by
  have hclL :
      clPart req.headers req.body = writeHeaders
        (if contains_key req.headers (chars "content-length") then []
         else [(chars "content-length", natRepr req.body.length)]) :=
    clPart_eq_writeHeaders req.headers req.body
  refine ⟨req.headers ++
    (if contains_key req.headers (chars "content-length") then []
     else [(chars "content-length", natRepr req.body.length)]), ?_, ?_, ?_⟩
  · -- decode the encoded bytes
    have henc : encodeRequest req =
        (methodToken req.method ++ ' ' :: (req.path ++ ' ' :: (versionToken req.version ++ ['\r']))) ++
          '\n' :: (writeHeaders (req.headers ++
            (if contains_key req.headers (chars "content-length") then []
             else [(chars "content-length", natRepr req.body.length)])) ++
            '\r' :: '\n' :: req.body) := by
      rw [writeHeaders_append]
      unfold encodeRequest
      rw [hclL]
      simp [List.append_assoc]
    have ha : '\n' ∉ methodToken req.method ++
        ' ' :: (req.path ++ ' ' :: (versionToken req.version ++ ['\r'])) := by
      intro hmem
      rcases List.mem_append.1 hmem with h1 | h2
      · exact methodToken_no_nl req.method h1
      · rcases List.mem_cons.1 h2 with h3 | h4
        · exact absurd h3 (by decide)
        · rcases List.mem_append.1 h4 with h5 | h6
          · exact hpn h5
          · rcases List.mem_cons.1 h6 with h7 | h8
            · exact absurd h7 (by decide)
            · rcases List.mem_append.1 h8 with h9 | h10
              · exact versionToken_no_nl req.version h9
              · exact absurd (List.mem_singleton.1 h10) (by decide)
    have hline1 : (methodToken req.method ++
          ' ' :: (req.path ++ ' ' :: (versionToken req.version ++ ['\r']))) ++ ['\n'] =
        methodToken req.method ++ ' ' :: (req.path ++ ' ' :: versionToken req.version) ++ ['\r', '\n'] := by
      simp [List.append_assoc]
    have hparse : parseRequestLine ((methodToken req.method ++
          ' ' :: (req.path ++ ' ' :: (versionToken req.version ++ ['\r']))) ++ ['\n']) =
        .ok (req.method, req.path, req.version) := by
      rw [hline1]
      exact parseRequestLine_wire req.method req.path req.version hv hps hpn
    -- the header block
    have hokext : ∀ kv ∈ req.headers ++
        (if contains_key req.headers (chars "content-length") then []
         else [(chars "content-length", natRepr req.body.length)]),
        asciiLower kv.1 = kv.1 ∧ trimStart kv.2 = kv.2 ∧
          ':' ∉ kv.1 ∧ '\n' ∉ kv.1 ∧ '\n' ∉ kv.2 := by
      intro kv hkv
      rcases List.mem_append.1 hkv with h1 | h2
      · exact hok kv h1
      · by_cases hc : contains_key req.headers (chars "content-length")
        · rw [if_pos hc] at h2; exact absurd h2 (by simp)
        · rw [if_neg hc] at h2
          rw [List.mem_singleton.1 h2]
          refine ⟨?_, ?_, ?_, ?_, ?_⟩
          · show asciiLower (chars "content-length") = chars "content-length"
            decide
          · show trimStart (natRepr req.body.length) = natRepr req.body.length
            exact trimStart_natRepr _
          · show ':' ∉ chars "content-length"
            decide
          · show '\n' ∉ chars "content-length"
            decide
          · show '\n' ∉ natRepr req.body.length
            exact natRepr_no_nl _
    -- the accumulated map is just the extended list
    have hnd2 : (((req.headers ++
        (if contains_key req.headers (chars "content-length") then []
         else [(chars "content-length", natRepr req.body.length)])).map Prod.fst)).Nodup := by
      by_cases hc : contains_key req.headers (chars "content-length")
      · simpa [hc] using hnd
      · rw [if_neg hc, List.map_append]
        have hnone : hget req.headers (chars "content-length") = none :=
          (contains_key_false_iff _ _).1 (by simpa using hc)
        have hnotin := not_mem_of_hget_none req.headers (chars "content-length") hnone
        refine List.Nodup.append hnd (by simp) ?_
        intro a hain hain2
        simp only [List.map_cons, List.map_nil, List.mem_singleton] at hain2
        exact hnotin (hain2 ▸ hain)
    have hfold : (req.headers ++
        (if contains_key req.headers (chars "content-length") then []
         else [(chars "content-length", natRepr req.body.length)])).foldl
          (fun a kv => hinsert a kv.1 kv.2) [] =
        req.headers ++
          (if contains_key req.headers (chars "content-length") then []
           else [(chars "content-length", natRepr req.body.length)]) := by
      have := foldl_hinsert_fresh (req.headers ++
        (if contains_key req.headers (chars "content-length") then []
         else [(chars "content-length", natRepr req.body.length)])) [] hnd2
        (fun kv _ => rfl)
      simpa using this
    have hr : read_from [] (writeHeaders (req.headers ++
        (if contains_key req.headers (chars "content-length") then []
         else [(chars "content-length", natRepr req.body.length)])) ++
        '\r' :: '\n' :: req.body) =
        .ok (req.headers ++
          (if contains_key req.headers (chars "content-length") then []
           else [(chars "content-length", natRepr req.body.length)]), req.body) := by
      rw [read_from_writeHeaders _ [] req.body hokext, hfold]
    rw [henc, serverRecv_decomp _ _ req.method req.path req.version _ _ ha hparse hr]
    -- content length of the decoded map
    have hgetcl : hget (req.headers ++
        (if contains_key req.headers (chars "content-length") then []
         else [(chars "content-length", natRepr req.body.length)]))
        (chars "content-length") = some (natRepr req.body.length) := by
      by_cases hc : contains_key req.headers (chars "content-length")
      · rcases hcl with hnone | hsome
        · obtain ⟨w, hw⟩ := (contains_key_true_iff _ _).1 hc
          rw [hnone] at hw
          exact absurd hw (by simp)
        · rw [if_pos hc]
          simpa using hsome
      · have hnone : hget req.headers (chars "content-length") = none :=
          (contains_key_false_iff _ _).1 (by simpa using hc)
        rw [if_neg hc, hget_append, hnone]
        rfl
    have hcontent : content_length (req.headers ++
        (if contains_key req.headers (chars "content-length") then []
         else [(chars "content-length", natRepr req.body.length)])) =
        some req.body.length := by
      unfold content_length
      rw [hgetcl]
      exact rustParseNat_natRepr _
    rw [hcontent]
    -- split on the declared length
    cases hn : req.body.length with
    | zero =>
      have hbody : req.body = [] := List.length_eq_zero.1 hn
      simp [hbody]
    | succ k => rfl
  · -- content-length entry of the decoded map
    by_cases hc : contains_key req.headers (chars "content-length")
    · rcases hcl with hnone | hsome
      · obtain ⟨w, hw⟩ := (contains_key_true_iff _ _).1 hc
        rw [hnone] at hw
        exact absurd hw (by simp)
      · rw [if_pos hc]
        simpa using hsome
    · have hnone : hget req.headers (chars "content-length") = none :=
        (contains_key_false_iff _ _).1 (by simpa using hc)
      rw [if_neg hc, hget_append, hnone]
      rfl
  · -- other entries are unchanged
    intro k hkne
    by_cases hc : contains_key req.headers (chars "content-length")
    · simp [hc]
    · rw [if_neg hc, hget_append]
      cases hgg : hget req.headers k with
      | some w => rfl
      | none =>
        show hget [(chars "content-length", natRepr req.body.length)] k = none
        have : chars "content-length" ≠ k := fun hh => hkne hh.symm
        simp [hget, this]

lemma readFromAux_no_blank (s : List Char) :
    ∀ (acc : Headers) (cur : List Char),
      (∀ l ∈ linesOfAux cur s, trimEndCRLF l ≠ []) →
      readFromAux acc cur s = .error HttpError.HttpSyntaxError := by
  induction s with
  | nil => intro acc cur _; rfl
  | cons c rest ih =>
    intro acc cur hlines
    by_cases hc : c = '\n'
    · subst hc
      have hmemhd : (cur ++ ['\n']) ∈ linesOfAux cur ('\n' :: rest) := by
        show (cur ++ ['\n']) ∈
          (if ('\n' : Char) = '\n' then (cur ++ ['\n']) :: linesOfAux [] rest
           else linesOfAux (cur ++ ['\n']) rest)
        rw [if_pos rfl]
        exact List.mem_cons_self _ _
      have hline : trimEndCRLF (cur ++ ['\n']) ≠ [] := hlines _ hmemhd
      have htail : ∀ l ∈ linesOfAux [] rest, trimEndCRLF l ≠ [] := by
        intro l hl
        refine hlines l ?_
        show l ∈
          (if ('\n' : Char) = '\n' then (cur ++ ['\n']) :: linesOfAux [] rest
           else linesOfAux (cur ++ ['\n']) rest)
        rw [if_pos rfl]
        exact List.mem_cons_of_mem _ hl
      show readFromAux acc cur ('\n' :: rest) = _
      rw [readFromAux, if_pos rfl, if_neg hline]
      cases hbr : breakAtChar ':' (trimEndCRLF (cur ++ ['\n'])) with
      | none => rfl
      | some kv => exact ih _ [] htail
    · have htail : ∀ l ∈ linesOfAux (cur ++ [c]) rest, trimEndCRLF l ≠ [] := by
        intro l hl
        refine hlines l ?_
        show l ∈ (if c = '\n' then (cur ++ ['\n']) :: linesOfAux [] rest
                  else linesOfAux (cur ++ [c]) rest)
        rw [if_neg hc]
        exact hl
      show readFromAux acc cur (c :: rest) = _
      rw [readFromAux, if_neg hc]
      exact ih _ _ htail

lemma writeHeaders_extract (h : Headers) (k v : List Char) (hg : hget h k = some v) :
    ∃ A B, writeHeaders h = A ++ (headerLine (k, v) ++ B) := by
  induction h with
  | nil => exact absurd hg (by simp [hget])
  | cons kv t ih =>
    rw [show hget (kv :: t) k = if kv.1 = k then some kv.2 else hget t k from rfl] at hg
    by_cases he : kv.1 = k
    · rw [if_pos he] at hg
      refine ⟨[], writeHeaders t, ?_⟩
      have hkv : kv = (k, v) := Prod.ext he (Option.some.inj hg)
      show headerLine kv ++ writeHeaders t = [] ++ (headerLine (k, v) ++ writeHeaders t)
      rw [hkv, List.nil_append]
    · rw [if_neg he] at hg
      obtain ⟨A, B, hAB⟩ := ih hg
      refine ⟨headerLine kv ++ A, B, ?_⟩
      show headerLine kv ++ writeHeaders t = (headerLine kv ++ A) ++ (headerLine (k, v) ++ B)
      rw [hAB, List.append_assoc]

/-- C1: the claim says a declared content-length of five with only three body
bytes on the stream must fail with an input error; the decoder instead calls
read_to_end, so it succeeds with the three available bytes, and with surplus
bytes it likewise returns all eight bytes rather than exactly five. -/
theorem c1_read_to_end_body :
    serverRecv (chars "GET / HTTP/1.1\r\ncontent-length: 5\r\n\r\nabc") =
      .ok ({method := HttpMethod.GET, path := chars "/", version := HttpVersion.HTTP1_1,
            headers := [(chars "content-length", chars "5")], body := chars "abc"}, []) ∧
    serverRecv (chars "GET / HTTP/1.1\r\ncontent-length: 5\r\n\r\nabcdefgh") =
      .ok ({method := HttpMethod.GET, path := chars "/", version := HttpVersion.HTTP1_1,
            headers := [(chars "content-length", chars "5")], body := chars "abcdefgh"}, []) :=
  ⟨rfl, rfl⟩

/-- C2 counterexample: a malformed first connection makes listen return the
error, so the well-formed second connection is never answered, even though
handling it alone succeeds. -/
theorem c2_counterexample :
    serverListen okHandler [chars "BAD\r\n", chars "GET / HTTP/1.1\r\n\r\n"] =
      .error HttpError.HttpSyntaxError ∧
    serverHandle okHandler (chars "GET / HTTP/1.1\r\n\r\n") =
      .ok (chars "HTTP/1.1 200 OK\r\ncontent-length: 0\r\n\r\n") :=
  ⟨rfl, rfl⟩

/-- C2 (amended): when every connection before some failing connection is
handled successfully and that connection fails with error e, the accept loop
propagates e and stops; the connections after the failing one are never
handled. -/
theorem c2_listen_stops_on_failure (handler : Handler) (pre post : List (List Char))
    (bad : List Char) (e : HttpError)
    (hpre : ∀ c ∈ pre, ∃ o, serverHandle handler c = .ok o)
    (hbad : serverHandle handler bad = .error e) :
    serverListen handler (pre ++ bad :: post) = .error e := by
  induction pre with
  | nil =>
    show serverListen handler (bad :: post) = .error e
    unfold serverListen
    rw [hbad]
  | cons c cs ih =>
    obtain ⟨o, ho⟩ := hpre c (List.mem_cons_self c cs)
    have ihr := ih (fun x hx => hpre x (List.mem_cons_of_mem c hx))
    show serverListen handler (c :: (cs ++ bad :: post)) = .error e
    unfold serverListen
    rw [ho, ihr]

/-- C2 witness: the amended statement at the concrete schedule of one
malformed connection. -/
theorem c2_witness :
    serverHandle okHandler (chars "BAD\r\n") = .error HttpError.HttpSyntaxError ∧
    serverListen okHandler ([] ++ chars "BAD\r\n" :: [chars "GET / HTTP/1.1\r\n\r\n"]) =
      .error HttpError.HttpSyntaxError :=
  ⟨rfl, c2_listen_stops_on_failure okHandler [] [chars "GET / HTTP/1.1\r\n\r\n"]
    (chars "BAD\r\n") HttpError.HttpSyntaxError (by simp) rfl⟩

/-- C3 counterexample: a header set with the single lower-case key
content-length mapped to 0 and the one-byte body x is encoded and decoded
into an empty body, so the round trip does not restore the body. -/
theorem c3_counterexample :
    serverRecv (encodeRequest
        {method := HttpMethod.GET, path := chars "/", version := HttpVersion.HTTP1_1,
         headers := [(chars "content-length", chars "0")], body := chars "x"}) =
      .ok ({method := HttpMethod.GET, path := chars "/", version := HttpVersion.HTTP1_1,
            headers := [(chars "content-length", chars "0")], body := []}, chars "x") ∧
    ([] : List Char) ≠ chars "x" :=
  ⟨rfl, by decide⟩

/-- C3 witness: the amended round trip at a concrete request with one plain
header and a one-byte body. -/
theorem c3_round_trip_witness :
    (' ' ∉ chars "/w") ∧
    (∃ h : Headers,
      serverRecv (encodeRequest
          {method := HttpMethod.GET, path := chars "/w", version := HttpVersion.HTTP1_1,
           headers := [(chars "a", chars "b")], body := chars "Z"}) =
        .ok ({method := HttpMethod.GET, path := chars "/w", version := HttpVersion.HTTP1_1,
              headers := h, body := chars "Z"}, []) ∧
      hget h (chars "content-length") = some (natRepr (chars "Z").length) ∧
      ∀ k, k ≠ chars "content-length" → hget h k = hget [(chars "a", chars "b")] k) :=
  ⟨by decide, c3_round_trip
    {method := HttpMethod.GET, path := chars "/w", version := HttpVersion.HTTP1_1,
     headers := [(chars "a", chars "b")], body := chars "Z"}
    (by decide) (by decide) (by decide) (by decide) (by decide) (Or.inl rfl)⟩

/-- C4: every encoded request and response carries a content-length header
line whose value is the caller-supplied one when the header set already
contains the content-length key, and the exact decimal byte count of the
body otherwise. -/
theorem c4_content_length_emitted (req : HttpRequest) (resp : HttpResponse) :
    (∃ A B, encodeRequest req = A ++ (headerLine (chars "content-length",
      match hget req.headers (chars "content-length") with
      | some v => v
      | none => natRepr req.body.length) ++ B)) ∧
    (∃ A B, encodeResponse resp = A ++ (headerLine (chars "content-length",
      match hget resp.headers (chars "content-length") with
      | some v => v
      | none => natRepr resp.body.length) ++ B)) := by
  constructor
  · rcases hg : hget req.headers (chars "content-length") with _ | v
    · have hc : contains_key req.headers (chars "content-length") = false :=
        (contains_key_false_iff _ _).2 hg
      refine ⟨methodToken req.method ++ ' ' :: req.path ++ ' ' :: versionToken req.version ++
        '\r' :: '\n' :: writeHeaders req.headers, '\r' :: '\n' :: req.body, ?_⟩
      simp only [hg]
      simp [encodeRequest, clPart, hc, List.append_assoc]
    · obtain ⟨A, B, hAB⟩ := writeHeaders_extract req.headers _ v hg
      refine ⟨methodToken req.method ++ ' ' :: req.path ++ ' ' :: versionToken req.version ++
        '\r' :: '\n' :: A, B ++ clPart req.headers req.body ++ '\r' :: '\n' :: req.body, ?_⟩
      simp only [hg]
      simp [encodeRequest, hAB, List.append_assoc]
  · rcases hg : hget resp.headers (chars "content-length") with _ | v
    · have hc : contains_key resp.headers (chars "content-length") = false :=
        (contains_key_false_iff _ _).2 hg
      refine ⟨versionToken resp.version ++ ' ' :: natRepr (statusCode resp.status) ++ ' ' ::
        statusReason resp.status ++ '\r' :: '\n' :: writeHeaders resp.headers,
        '\r' :: '\n' :: resp.body, ?_⟩
      simp only [hg]
      simp [encodeResponse, clPart, hc, List.append_assoc]
    · obtain ⟨A, B, hAB⟩ := writeHeaders_extract resp.headers _ v hg
      refine ⟨versionToken resp.version ++ ' ' :: natRepr (statusCode resp.status) ++ ' ' ::
        statusReason resp.status ++ '\r' :: '\n' :: A,
        B ++ clPart resp.headers resp.body ++ '\r' :: '\n' :: resp.body, ?_⟩
      simp only [hg]
      simp [encodeResponse, hAB, List.append_assoc]

/-- C5 counterexample: after parsing the header line Content-Type the stored
key is the lower-cased content-type; testing membership with the original
casing Content-Type returns false while the lower-cased name returns true,
so lookups are not case-insensitive, only insertion normalizes. -/
theorem c5_counterexample :
    read_from [] (chars "Content-Type: x\r\n\r\n") =
      .ok ([(chars "content-type", chars "x")], []) ∧
    contains_key [(chars "content-type", chars "x")] (chars "Content-Type") = false ∧
    contains_key [(chars "content-type", chars "x")] (chars "content-type") = true :=
  ⟨rfl, rfl, rfl⟩

/-- C5 (amended): header names are lower-cased on insertion and lookups are
exact matches on the stored lower-cased name; parsing two header lines whose
names agree up to ASCII case yields a single entry under the lower-cased
name holding the second value, so differing casings overwrite rather than
duplicate, and the value is found under the lower-cased name. -/
theorem c5_lowercase_insert_overwrite (k1 k2 v1 v2 rest : List Char)
    (h1 : ':' ∉ k1) (h2 : '\n' ∉ k1) (h3 : '\n' ∉ v1) (h4 : trimStart v1 = v1)
    (h5 : ':' ∉ k2) (h6 : '\n' ∉ k2) (h7 : '\n' ∉ v2) (h8 : trimStart v2 = v2)
    (heq : asciiLower k2 = asciiLower k1) :
    read_from [] (headerLine (k1, v1) ++ (headerLine (k2, v2) ++ '\r' :: '\n' :: rest)) =
      .ok ([(asciiLower k1, v2)], rest) ∧
    hget [(asciiLower k1, v2)] (asciiLower k1) = some v2 := by
  constructor
  · show readFromAux [] [] (headerLine (k1, v1) ++ (headerLine (k2, v2) ++ '\r' :: '\n' :: rest)) = _
    rw [read_step [] (k1, v1) _ h1 h2 h3]
    rw [read_step _ (k2, v2) _ h5 h6 h7]
    show readFromAux (hinsert (hinsert [] (asciiLower k1) (trimStart v1))
        (asciiLower k2) (trimStart v2)) [] ('\r' :: '\n' :: rest) = _
    rw [h4, h8, heq]
    have hins : hinsert (hinsert [] (asciiLower k1) v1) (asciiLower k1) v2 =
        [(asciiLower k1, v2)] := by
      show (if asciiLower k1 = asciiLower k1 then [(asciiLower k1, v2)]
            else (asciiLower k1, v1) :: hinsert [] (asciiLower k1) v2) = _
      rw [if_pos rfl]
    rw [hins]
    exact read_from_nil_block _ rest
  · show (if asciiLower k1 = asciiLower k1 then some v2 else hget [] (asciiLower k1)) = some v2
    rw [if_pos rfl]

/-- C6: a request line that splits on spaces into fewer than three tokens,
or whose first token is neither GET nor POST, or whose third token names an
unsupported version, makes server-side decoding fail with a syntax error and
no request is produced. -/
theorem c6_malformed_request_line (s : List Char)
    (h : (splitnChar 3 ' ' (trimEndCRLF (readLine s).1)).length < 3 ∨
      methodFromToken ((splitnChar 3 ' ' (trimEndCRLF (readLine s).1)).getD 0 []) = none ∨
      versionFromToken ((splitnChar 3 ' ' (trimEndCRLF (readLine s).1)).getD 2 []) =
        HttpVersion.UNSUPPORTED) :
    serverRecv s = .error HttpError.HttpSyntaxError := by
  have hperr : parseRequestLine (readLine s).1 = .error HttpError.HttpSyntaxError := by
    unfold parseRequestLine
    rcases hsp : splitnChar 3 ' ' (trimEndCRLF (readLine s).1) with _ | ⟨mt, rest⟩
    · rfl
    · rw [hsp] at h
      rcases hm : methodFromToken mt with _ | m
      · simp only [hm]
      · rcases rest with _ | ⟨pt, rest2⟩
        · simp only [hm]
        · rcases rest2 with _ | ⟨vt, rest3⟩
          · simp only [hm]
          · have hvu : versionFromToken vt = HttpVersion.UNSUPPORTED := by
              rcases h with hlen | hmm | hvv
              · simp at hlen
                omega
              · rw [show (mt :: pt :: vt :: rest3).getD 0 [] = mt from rfl] at hmm
                rw [hmm] at hm
                cases hm
              · rwa [show (mt :: pt :: vt :: rest3).getD 2 [] = vt from rfl] at hvv
            simp [hm, hvu]
  unfold serverRecv
  rw [hperr]

/-- C6 witness: the two-token request line GET / makes decoding fail. -/
theorem c6_malformed_witness :
    ((splitnChar 3 ' ' (trimEndCRLF (readLine (chars "GET /\r\n")).1)).length < 3 ∨
      methodFromToken ((splitnChar 3 ' '
        (trimEndCRLF (readLine (chars "GET /\r\n")).1)).getD 0 []) = none ∨
      versionFromToken ((splitnChar 3 ' '
        (trimEndCRLF (readLine (chars "GET /\r\n")).1)).getD 2 []) =
        HttpVersion.UNSUPPORTED) ∧
    serverRecv (chars "GET /\r\n") = .error HttpError.HttpSyntaxError :=
  ⟨Or.inl (by decide), c6_malformed_request_line (chars "GET /\r\n") (Or.inl (by decide))⟩

/-- C7: router dispatch equals a first-match scan: the handler of the first
rule agreeing with the request on method and on the exact path is invoked,
and with no such rule the result is a NotFound response carrying the inbound
version, empty headers and an empty body, next to the unchanged request. -/
theorem c7_router_dispatch (rules : List Rule) (req : HttpRequest) :
    routerHandle rules req =
      match rules.find? (fun r => decide (r.method = req.method ∧ r.path = req.path)) with
      | some r => r.handler req
      | none => .ok ({version := req.version, status := HttpStatus.NotFound,
                      headers := [], body := []}, req) := by
  induction rules with
  | nil => rfl
  | cons r rs ih =>
    show (if r.method = req.method ∧ r.path = req.path then r.handler req
          else routerHandle rs req) = _
    by_cases hm : r.method = req.method ∧ r.path = req.path
    · have hfind : List.find?
          (fun r => decide (r.method = req.method ∧ r.path = req.path)) (r :: rs) = some r := by
        apply List.find?_cons_of_pos
        simpa using hm
      rw [if_pos hm, hfind]
    · have hfind : List.find?
          (fun r => decide (r.method = req.method ∧ r.path = req.path)) (r :: rs) =
          List.find? (fun r => decide (r.method = req.method ∧ r.path = req.path)) rs := by
        apply List.find?_cons_of_neg
        simpa using hm
      rw [if_neg hm, hfind, ih]

/-- C8: header-block parsing fails with a syntax error, never with a partial
header set, both when the stream has no line whose trimmed content is the
empty terminator (end of stream before the blank CR LF line) and when the
first header line is non-empty after trimming and contains no colon. -/
theorem c8_header_parse_errors (acc : Headers) (s line rest : List Char) :
    ((∀ l ∈ linesOf s, trimEndCRLF l ≠ []) →
      read_from acc s = .error HttpError.HttpSyntaxError) ∧
    ('\n' ∉ line → ':' ∉ line → trimEndCRLF (line ++ ['\n']) ≠ [] →
      read_from acc (line ++ '\n' :: rest) = .error HttpError.HttpSyntaxError) := by
  constructor
  · intro hlines
    exact readFromAux_no_blank s acc [] hlines
  · intro hnl hnc hne
    show readFromAux acc [] (line ++ '\n' :: rest) = _
    rw [readFromAux_line acc [] line rest hnl]
    have hsh : [] ++ line ++ ['\n'] = line ++ ['\n'] := by simp
    rw [hsh, if_neg hne]
    have hbr : breakAtChar ':' (trimEndCRLF (line ++ ['\n'])) = none := by
      apply breakAtChar_none
      intro hmem
      have := mem_trimEndCRLF ':' (line ++ ['\n']) hmem
      rcases List.mem_append.1 this with h1 | h2
      · exact hnc h1
      · exact absurd (List.mem_singleton.1 h2) (by decide)
    rw [hbr]

/-- C8 witness: a colonless line and a terminator-free stream both fail. -/
theorem c8_header_parse_witness :
    (∀ l ∈ linesOf (chars "a: b\r\nx"), trimEndCRLF l ≠ []) ∧
    read_from [] (chars "a: b\r\nx") = .error HttpError.HttpSyntaxError ∧
    read_from [] (chars "abc" ++ '\n' :: chars "\r\n") = .error HttpError.HttpSyntaxError :=
  ⟨by decide, (c8_header_parse_errors [] (chars "a: b\r\nx") [] []).1 (by decide),
    (c8_header_parse_errors [] [] (chars "abc") (chars "\r\n")).2
      (by decide) (by decide) (by decide)⟩

/-- C9: body resolution is asymmetric: a response whose parsed headers give
content-length 0 decodes to an empty body leaving the rest of the stream
unread; a response with no content-length takes the whole remaining stream
as the body; a request with no content-length decodes to an empty body
leaving the rest of the stream unread. -/
theorem c9_body_resolution (s rest : List Char) (h : Headers)
    (hp : read_from [] s = .ok (h, rest)) :
    (content_length h = some 0 →
      clientRecv (chars "HTTP/1.1 200 OK\r\n" ++ s) =
        .ok ({version := HttpVersion.HTTP1_1, status := HttpStatus.Ok,
              headers := h, body := []}, rest)) ∧
    (content_length h = none →
      clientRecv (chars "HTTP/1.1 200 OK\r\n" ++ s) =
        .ok ({version := HttpVersion.HTTP1_1, status := HttpStatus.Ok,
              headers := h, body := rest}, [])) ∧
    (content_length h = none →
      serverRecv (chars "GET / HTTP/1.1\r\n" ++ s) =
        .ok ({method := HttpMethod.GET, path := chars "/", version := HttpVersion.HTTP1_1,
              headers := h, body := []}, rest)) := by
  have hredc : clientRecv (chars "HTTP/1.1 200 OK\r\n" ++ s) =
      (match read_from [] s with
       | .error e => .error e
       | .ok (h, s2) =>
         match content_length h with
         | some 0 => .ok
             ({version := HttpVersion.HTTP1_1, status := HttpStatus.Ok, headers := h,
               body := []}, s2)
         | some _ => .ok
             ({version := HttpVersion.HTTP1_1, status := HttpStatus.Ok, headers := h,
               body := s2}, [])
         | none => .ok
             ({version := HttpVersion.HTTP1_1, status := HttpStatus.Ok, headers := h,
               body := s2}, [])) := rfl
  have hreds : serverRecv (chars "GET / HTTP/1.1\r\n" ++ s) =
      (match read_from [] s with
       | .error e => .error e
       | .ok (h, s2) =>
         match content_length h with
         | some 0 => .ok
             ({method := HttpMethod.GET, path := chars "/", version := HttpVersion.HTTP1_1,
               headers := h, body := []}, s2)
         | some _ => .ok
             ({method := HttpMethod.GET, path := chars "/", version := HttpVersion.HTTP1_1,
               headers := h, body := s2}, [])
         | none => .ok
             ({method := HttpMethod.GET, path := chars "/", version := HttpVersion.HTTP1_1,
               headers := h, body := []}, s2)) := rfl
  refine ⟨?_, ?_, ?_⟩ <;> intro hcl
  · rw [hredc]
    simp only [hp, hcl]
  · rw [hredc]
    simp only [hp, hcl]
  · rw [hreds]
    simp only [hp, hcl]

/-- C9 witness: with a content-length 0 header block followed by three
surplus bytes, the client decoder returns an empty body and leaves the
surplus unconsumed. -/
theorem c9_body_resolution_witness :
    read_from [] (chars "content-length: 0\r\n\r\nXYZ") =
      .ok ([(chars "content-length", chars "0")], chars "XYZ") ∧
    content_length [(chars "content-length", chars "0")] = some 0 ∧
    clientRecv (chars "HTTP/1.1 200 OK\r\n" ++ chars "content-length: 0\r\n\r\nXYZ") =
      .ok ({version := HttpVersion.HTTP1_1, status := HttpStatus.Ok,
            headers := [(chars "content-length", chars "0")], body := []}, chars "XYZ") :=
  ⟨rfl, rfl, (c9_body_resolution (chars "content-length: 0\r\n\r\nXYZ")
    (chars "XYZ") [(chars "content-length", chars "0")] rfl).1 rfl⟩

/-- C10: when no rule matches the request on method and path, dispatch
returns the synthesized NotFound response next to the request with every
field unchanged, independent of the rules handlers, which are not invoked. -/
theorem c10_no_match_frame (rules : List Rule) (req : HttpRequest)
    (h : ∀ r ∈ rules, ¬(r.method = req.method ∧ r.path = req.path)) :
    routerHandle rules req =
      .ok ({version := req.version, status := HttpStatus.NotFound,
            headers := [], body := []}, req) := by
  induction rules with
  | nil => rfl
  | cons r rs ih =>
    show (if r.method = req.method ∧ r.path = req.path then r.handler req
          else routerHandle rs req) = _
    rw [if_neg (h r (List.mem_cons_self r rs))]
    exact ih (fun x hx => h x (List.mem_cons_of_mem r hx))

/-- C10 witness: one GET rule, a POST request to the same path. -/
theorem c10_no_match_witness :
    (∀ r ∈ [Rule.mk HttpMethod.GET (chars "/ok") okHandler],
      ¬(r.method = HttpMethod.POST ∧ r.path = chars "/ok")) ∧
    routerHandle [Rule.mk HttpMethod.GET (chars "/ok") okHandler]
        {method := HttpMethod.POST, path := chars "/ok", version := HttpVersion.HTTP1_1,
         headers := [], body := []} =
      .ok ({version := HttpVersion.HTTP1_1, status := HttpStatus.NotFound,
            headers := [], body := []},
        {method := HttpMethod.POST, path := chars "/ok", version := HttpVersion.HTTP1_1,
         headers := [], body := []}) := by
  have hnomatch : ∀ r ∈ [Rule.mk HttpMethod.GET (chars "/ok") okHandler],
      ¬(r.method = HttpMethod.POST ∧ r.path = chars "/ok") := by
    intro r hr
    rw [List.mem_singleton.1 hr]
    decide
  exact ⟨hnomatch, c10_no_match_frame _ _ hnomatch⟩

/-- C5 witness: the amended statement at the two casings Content-Type and
CONTENT-TYPE of the same name. -/
theorem c5_witness :
    (':' ∉ chars "Content-Type") ∧
    read_from [] (headerLine (chars "Content-Type", chars "x") ++
        (headerLine (chars "CONTENT-TYPE", chars "y") ++ '\r' :: '\n' :: [])) =
      .ok ([(asciiLower (chars "Content-Type"), chars "y")], []) :=
  ⟨by decide, (c5_lowercase_insert_overwrite (chars "Content-Type") (chars "CONTENT-TYPE")
    (chars "x") (chars "y") [] (by decide) (by decide) (by decide) (by decide)
    (by decide) (by decide) (by decide) (by decide) (by decide)).1⟩
